import Mathlib

/-!
Shallow embedding of `gwpy/toolkits/dataviewer/buffer.py` (class `BufferCore`),
together with executable models of the external collaborators the class
drives: the segment algebra of `gwpy.segments` (`Segment`, `SegmentList`),
the per-channel series containers of `gwpy.timeseries` (`TimeSeries`,
`TimeSeriesList`, `TimeSeriesDict`) and the channel resolver
`ChannelList.from_names` of `gwpy.detector`.

GPS times and sample payloads are modelled over `Int`; fallible Python code
returns `Except PyErr`; the abstract remote data source (`fetch`) is a
function parameter, and every invocation of it is recorded in the output, so
theorems can speak about exactly which fetches an operation performs.
-/

/-- A raised Python exception, identified by its class. -/
inductive PyErr
  | nameError
  | keyError
  | typeError
  | valueError
  | attributeError
  | notImplementedError
  | runtimeError
deriving DecidableEq

/-- A resolved channel descriptor, as produced by the channel resolver
`ChannelList.from_names`.  Channels compare by resolver equality.  A resolved
channel is an object, never a Python `str`; this matters at line 135 of the
source, where `isinstance(channel, str)` is tested on a resolved channel. -/
structure Channel where
  name : String
deriving DecidableEq

/-- A half-open GPS interval, modelling `gwpy.segments.Segment`. -/
abbrev Seg := Int × Int

/-- An interval list, modelling `gwpy.segments.SegmentList`. -/
abbrev SegList := List Seg

/-- One regularly sampled series chunk for a single channel, modelling
`gwpy.timeseries.TimeSeries`: an epoch, a sample spacing `dt`, and the
sample payload.  Sample `i` sits at time `start + dt * i`. -/
structure Chunk where
  start : Int
  dt : Int
  values : List Int
deriving DecidableEq

/-- The end of the interval covered by a chunk. -/
def Chunk.stop (c : Chunk) : Int := c.start + c.dt * (c.values.length : Int)

/-- The interval covered by a chunk, modelling `TimeSeries.span`. -/
def Chunk.span (c : Chunk) : Seg := (c.start, c.stop)

/-
Segment algebra: the model of `gwpy.segments.SegmentList` arithmetic, whose
results are always returned coalesced (sorted, non-overlapping, non-adjacent,
with degenerate intervals dropped).
-/

/-- Insert an interval into a list sorted by left endpoint. -/
def segInsertSort (s : Seg) : SegList → SegList
  | [] => [s]
  | x :: xs => if s.1 ≤ x.1 then s :: x :: xs else x :: segInsertSort s xs

/-- Sort an interval list by left endpoint. -/
def sortSegs : SegList → SegList
  | [] => []
  | x :: xs => segInsertSort x (sortSegs xs)

/-- Merge one interval into an already coalesced list whose members all start
at or after `a.1`, fusing whatever `a` reaches (overlap or adjacency). -/
def insertMerge (a : Seg) : SegList → SegList
  | [] => [a]
  | b :: tail => if b.1 ≤ a.2 then insertMerge (a.1, max a.2 b.2) tail else a :: b :: tail

/-- Coalesce a list that is already sorted by left endpoint: drop degenerate
intervals and fuse overlapping or adjacent ones. -/
def mergeSorted : SegList → SegList
  | [] => []
  | a :: rest => if a.1 < a.2 then insertMerge a (mergeSorted rest) else mergeSorted rest

/-- Normalize an interval list: sort, drop degenerates, fuse. -/
def normSegs (l : SegList) : SegList := mergeSorted (sortSegs l)

/-- Intersection of two interval lists, modelling `SegmentList.__and__`. -/
def segAnd (a b : SegList) : SegList :=
  normSegs (a.flatMap (fun x => b.map (fun y => (max x.1 y.1, min x.2 y.2))))

/-- The (at most two) pieces of `x` left after removing `y`. -/
def segSub1 (x y : Seg) : SegList :=
  [(x.1, min x.2 y.1), (max x.1 y.2, x.2)]

/-- Remove every interval of `ys` from the single interval `x`. -/
def segSubSeg (x : Seg) (ys : SegList) : SegList :=
  ys.foldl (fun pieces y =>
    pieces.flatMap (fun p => (segSub1 p y).filter (fun s => s.1 < s.2))) [x]

/-- Difference of two interval lists, modelling `SegmentList.__sub__`. -/
def segSub (a b : SegList) : SegList :=
  normSegs (a.flatMap (fun x => segSubSeg x b))

/-- Union of two interval lists, modelling `SegmentList.__or__`. -/
def segOr (a b : SegList) : SegList := normSegs (a ++ b)

/-- Total duration of an interval list, modelling `abs(SegmentList)`. -/
def segAbs : SegList → Int
  | [] => 0
  | s :: rest => (s.2 - s.1) + segAbs rest

/-
Series container algebra: the model of `gwpy.timeseries.TimeSeriesList`.
Coalescing sorts the chunks by epoch and merges compatible chunks (identical
sampling) that overlap or touch, dropping samples duplicated by an overlap.
-/

/-- Whether two chunks can be fused: identical sampling, and `b` starts no
later than `a` ends. -/
def canMerge (a b : Chunk) : Bool :=
  (a.dt == b.dt) && decide (b.start ≤ a.stop)

/-- Fuse two chunks, dropping the leading samples of `b` that fall before the
end of `a`. -/
def mergeChunks (a b : Chunk) : Chunk :=
  { start := a.start, dt := a.dt,
    values := a.values ++ b.values.drop
      ((List.range b.values.length).countP
        (fun i => decide (b.start + b.dt * (i : Int) < a.stop))) }

/-- Merge one chunk into an already coalesced list, fusing whatever it
reaches. -/
def insertChunk (a : Chunk) : List Chunk → List Chunk
  | [] => [a]
  | b :: tail => if canMerge a b then insertChunk (mergeChunks a b) tail else a :: b :: tail

/-- Coalesce a chunk list that is already sorted by epoch. -/
def coalesceRun : List Chunk → List Chunk
  | [] => []
  | a :: rest => insertChunk a (coalesceRun rest)

/-- Insert a chunk into a list sorted by epoch. -/
def insChunk (c : Chunk) : List Chunk → List Chunk
  | [] => [c]
  | x :: xs => if c.start ≤ x.start then c :: x :: xs else x :: insChunk c xs

/-- Sort a chunk list by epoch, modelling the `self.sort(key=...)` step of
`TimeSeriesList.coalesce`. -/
def sortByStart : List Chunk → List Chunk
  | [] => []
  | x :: xs => insChunk x (sortByStart xs)

/-- Model of `TimeSeriesList.coalesce`: sort by epoch, then merge
overlapping or adjacent chunks of identical sampling. -/
def coalesceList (l : List Chunk) : List Chunk := coalesceRun (sortByStart l)

/-- Model of `TimeSeries.crop(a, b)`: restrict a chunk to the samples whose
times lie in the half-open interval from `a` to `b`. -/
def Chunk.crop (ts : Chunk) (a b : Int) : Chunk :=
  let times := (List.range ts.values.length).map (fun i => ts.start + ts.dt * (i : Int))
  let i0 := times.countP (fun t => decide (t < a))
  let i1 := times.countP (fun t => decide (t < b))
  { start := ts.start + ts.dt * (i0 : Int), dt := ts.dt,
    values := (ts.values.drop i0).take (i1 - i0) }

/-- The interval list covered by a per-channel chunk list, modelling the
`TimeSeriesList.segments` property: one raw span per chunk. -/
def channelSegments (l : List Chunk) : SegList := l.map Chunk.span

/-- The per-channel data returned by one fetch: a mapping from channel to one
freshly retrieved chunk, modelling the `TimeSeriesDict` result of `fetch`. -/
abbrev FetchData := List (Channel × Chunk)

/-- The state of a `BufferCore` instance: the resolved channel list
(`self.channels`) and the per-channel chunk containers (`self.data`),
modelled as an ordered association list. -/
structure Buffer where
  channels : List Channel
  data : List (Channel × List Chunk)
deriving DecidableEq

/-- Dictionary lookup `self.data[c]`, as an `Option`. -/
def lookupData (buf : Buffer) (c : Channel) : Option (List Chunk) :=
  (buf.data.find? (fun p => p.1 == c)).map (fun p => p.2)

/-- A record of one invocation of the abstract `fetch` method: the channel
list it was given and the two GPS bounds. -/
structure FetchCall where
  channels : List Channel
  start : Int
  stop : Int
deriving DecidableEq

/-- The abstract remote data source: the `fetch` contract that subclasses
must supply.  Given a channel list and two GPS bounds it returns per-channel
data, or raises. -/
abbrev Fetcher := List Channel → Int → Int → Except PyErr FetchData

/-- Model of the base-class `fetch` (source lines 151-153): it always raises
`NotImplementedError`. -/
def baseFetch : Fetcher := fun _ _ _ => .error .notImplementedError

/-- Whether an `Except` computation succeeded. -/
def exceptOk {α β : Type _} : Except α β → Bool
  | .ok _ => true
  | .error _ => false

/-- The two output shapes of `BufferCore.get`: the bare series container of a
single channel (source line 136), or a per-channel mapping (line 138). -/
inductive GetResult
  | bare (series : List Chunk)
  | mapping (entries : List (Channel × List Chunk))
deriving DecidableEq

/-- The complete outcome of a call into the buffer: the returned value or the
exception raised, the buffer state afterwards (Python mutates `self.data` in
place, so the state survives an exception), and the fetch calls made. -/
structure GetOut where
  result : Except PyErr GetResult
  buf : Buffer
  calls : List FetchCall

/-- The four accepted shapes of the `segments` argument of `get`
(source lines 102-108): absent, a single `Segment` or endpoint pair, a
`DataQualityFlag` (whose active list is used), or a `SegmentList`. -/
inductive SegSpec
  | noSpec
  | pair (a b : Int)
  | flag (active : SegList)
  | segs (l : SegList)

/-- One positional argument to `ChannelList.from_names`: a name string, or
some other object (`add_channels` passes its whole argument tuple). -/
inductive PyVal
  | str (s : String)
  | tuple (l : List String)

/-- Model of the resolver classmethod `ChannelList.from_names(*names)`: each
positional argument must be a name string, which resolves to a `Channel`; a
non-string argument fails the string handling inside the resolver with a
`TypeError`. -/
def from_names (args : List PyVal) : Except PyErr (List Channel) :=
  args.mapM (fun a =>
    match a with
    | .str s => Except.ok (Channel.mk s)
    | .tuple _ => Except.error PyErr.typeError)

namespace BufferCore

/-- The constructor argument: `BufferCore.__init__` accepts one name string
or a list of name strings. -/
inductive ChannelsArg
  | one (s : String)
  | many (l : List String)

/-- `BufferCore.__init__` (source lines 67-74): a single string is wrapped
into a one-element list, the names are resolved through
`ChannelList.from_names(*channels)` (each argument here is a string, so
resolution succeeds), and `self.data` is set to `self.DictClass()` — an
empty dictionary, with no per-channel entries. -/
def init (arg : ChannelsArg) : Buffer :=
  let names := match arg with
    | .one s => [s]
    | .many l => l
  { channels := names.map Channel.mk, data := [] }

/-- `BufferCore.append` (source lines 146-149), through
`TimeSeriesDict.append`: each fetched chunk is concatenated onto the
container of its channel, creating the entry if the channel is new. -/
def appendEntry (data : List (Channel × List Chunk)) (c : Channel) (k : Chunk) :
    List (Channel × List Chunk) :=
  match data with
  | [] => [(c, [k])]
  | (c0, l) :: rest =>
    if c0 == c then (c0, l ++ [k]) :: rest else (c0, l) :: appendEntry rest c k

/-- `BufferCore.append` on the buffer state. -/
def append (buf : Buffer) (new : FetchData) : Buffer :=
  { buf with data := new.foldl (fun d p => appendEntry d p.1 p.2) buf.data }

/-- `BufferCore.coalesce` (source lines 140-144): every per-channel
container is replaced by its coalesced version. -/
def coalesce (buf : Buffer) : Buffer :=
  { buf with data := buf.data.map (fun p => (p.1, coalesceList p.2)) }

/-- Source lines 110-111: `reduce(operator.and_, (self.data[c].segments for c
in self.channels))`.  An empty channel list makes `reduce` raise a
`TypeError`; a channel without a data entry raises a `KeyError`. -/
def available (buf : Buffer) : Except PyErr SegList :=
  match buf.channels with
  | [] => Except.error PyErr.typeError
  | c :: cs =>
    match lookupData buf c with
    | none => Except.error PyErr.keyError
    | some l =>
      cs.foldlM (fun acc c0 =>
        match lookupData buf c0 with
        | none => Except.error PyErr.keyError
        | some l0 => Except.ok (segAnd acc (channelSegments l0))) (channelSegments l)

/-- Source lines 115-119: fetch each missing interval in order, append the
returned data, coalesce, then move on; a raised fetch exception stops the
loop, with all earlier appends already committed to the buffer. -/
def fetchLoop (fetcher : Fetcher) : Buffer → SegList → Buffer × List FetchCall × Option PyErr
  | buf, [] => (buf, [], none)
  | buf, s :: rest =>
    match fetcher buf.channels s.1 s.2 with
    | .error e => (buf, [FetchCall.mk buf.channels s.1 s.2], some e)
    | .ok d =>
      let r := fetchLoop fetcher (coalesce (append buf d)) rest
      (r.1, FetchCall.mk buf.channels s.1 s.2 :: r.2.1, r.2.2)

/-- The buffer-state effect of one iteration of the fetch loop of `get`:
append the fetched data and coalesce on success, no change on a raised
fetch. -/
def loopStep (chs : List Channel) (fetcher : Fetcher) (b : Buffer) (s : Seg) : Buffer :=
  match fetcher chs s.1 s.2 with
  | .ok d => coalesce (append b d)
  | .error _ => b

/-- Source lines 122-134, inner loops for one channel: crop every buffered
chunk to every requested interval (skipping intervals shorter than the chunk
sampling, non-intersecting chunks and empty crops), collect the pieces into
a fresh container, and coalesce it. -/
def buildSeries (chunks : List Chunk) (segs : SegList) : List Chunk :=
  coalesceList
    (chunks.foldl (fun acc ts =>
      segs.foldl (fun acc2 seg =>
        if seg.2 - seg.1 < ts.dt then acc2
        else if seg.1 < ts.stop ∧ ts.start < seg.2 then
          if (ts.crop seg.1 seg.2).values.length == 0 then acc2
          else acc2 ++ [ts.crop seg.1 seg.2]
        else acc2) acc) [])

/-- Source lines 122-134, outer loop: one freshly built container per
channel of the buffer, assembled into the output dictionary. -/
def buildOut (buf : Buffer) (segs : SegList) : Except PyErr (List (Channel × List Chunk)) :=
  buf.channels.foldlM (fun out c =>
    match lookupData buf c with
    | none => Except.error PyErr.keyError
    | some chunks => Except.ok (out ++ [(c, buildSeries chunks segs)])) []

/-- The body of `get` after the `segments` argument has been normalized to a
`SegmentList` (source lines 109-138).  Line 135 tests
`isinstance(channel, str) and len(channels) == 1` where `channel` is the
loop variable of line 123 — a resolved channel object, never a `str` — so
the conjunction short-circuits to `False` and line 138 returns the mapping;
were the channel list empty, the name `channel` would be unbound and raise a
`NameError` (that path is unreachable because line 110 raises first).
`getFinish` is the tail of that body, after the fetch loop has produced the
buffer state `buf1`, the record `calls` of fetches made, and `err`, the
exception the loop raised if any. -/
def getFinish (buf1 : Buffer) (calls : List FetchCall) (err : Option PyErr)
    (segs : SegList) : GetOut :=
  match err with
  | some e => ⟨.error e, buf1, calls⟩
  | none =>
    match buildOut buf1 segs with
    | .error e => ⟨.error e, buf1, calls⟩
    | .ok out =>
      match buf1.channels with
      | [] => ⟨.error PyErr.nameError, buf1, calls⟩
      | _ :: _ => ⟨.ok (GetResult.mapping out), buf1, calls⟩

/-- The body of `get` proper: compute availability, fetch what is missing,
then finish by building the output (see `getFinish`). -/
def getSegs (buf : Buffer) (fetcher : Fetcher) (segs : SegList) (fetch : Bool) : GetOut :=
  match available buf with
  | .error e => ⟨.error e, buf, []⟩
  | .ok avail =>
    match (if fetch && (segAbs (segSub segs avail) != 0)
           then fetchLoop fetcher buf (segSub segs avail)
           else (buf, [], none)) with
    | (buf1, calls, err) => getFinish buf1 calls err segs

/-- `BufferCore.get` (source lines 76-138).  When `segments` is `None`,
line 104 evaluates `type(self.data)((c, self.data[c]) for c in channels)`:
the name `channels` is not defined anywhere in scope (the method has no such
parameter and the module has no such global), so creating the generator
raises a `NameError` before anything else happens.  Otherwise the argument
is normalized (lines 105-108) and the main body runs. -/
def get (buf : Buffer) (fetcher : Fetcher) (spec : SegSpec) (fetch : Bool) : GetOut :=
  match spec with
  | .noSpec => ⟨.error PyErr.nameError, buf, []⟩
  | .pair a b => getSegs buf fetcher [(a, b)] fetch
  | .flag active => getSegs buf fetcher active fetch
  | .segs l => getSegs buf fetcher l fetch

/-- The `segments` property (source lines 173-184): the union over the data
dictionary values of each container extent, as a one-interval list each; the
`TypeError` that `reduce` raises on an empty dictionary is caught and turned
into an empty `SegmentList`. -/
def tslSpan (l : List Chunk) : Except PyErr Seg :=
  match l with
  | [] => Except.error PyErr.valueError
  | c :: cs => Except.ok (cs.foldl (fun acc k => (min acc.1 k.start, max acc.2 k.stop)) c.span)

/-- The `segments` property on the buffer state. -/
def segments (buf : Buffer) : Except PyErr SegList :=
  match buf.data with
  | [] => Except.ok []
  | e :: es =>
    match tslSpan e.2 with
    | .error ex => Except.error ex
    | .ok s0 =>
      es.foldlM (fun acc p => (tslSpan p.2).map (fun s => segOr acc [s])) [s0]

/-- The `extent` property (source lines 186-198): `Segment(*self.segments.extent())`,
where `SegmentList.extent()` raises a `ValueError` on an empty list. -/
def extent (buf : Buffer) : Except PyErr Seg :=
  match segments buf with
  | .error e => Except.error e
  | .ok [] => Except.error PyErr.valueError
  | .ok (s :: ss) => Except.ok (ss.foldl (fun acc x => (min acc.1 x.1, max acc.2 x.2)) s)

/-- The `start` read accessor body (source lines 200-204). -/
def startTime (buf : Buffer) : Except PyErr Int := (extent buf).map (fun s => s.1)

/-- The `end` read accessor body (source lines 216-220). -/
def endTime (buf : Buffer) : Except PyErr Int := (extent buf).map (fun s => s.2)

/-- The body of the `start` write accessor (source lines 206-214).  In the
source this function and the getter of lines 200-204 are both decorated
`@property` under the same name, so the second replaces the first and the
class is left with a property whose underlying function takes two arguments:
reading `start` raises a `TypeError` and assigning to it raises an
`AttributeError`, making this body unreachable through normal attribute
access.  It is modelled here generously, with `self.start` and `self.end`
reads given the getter semantics.  The `warnings` module is never imported
in buffer.py, so the warn branch (line 211) raises a `NameError`; and the
value returned by `self.fetch` (line 214) is discarded — nothing is appended
to the buffer. -/
def startSetterBody (buf : Buffer) (fetcher : Fetcher) (t : Int) :
    Except PyErr Unit × Buffer × List FetchCall :=
  match extent buf with
  | .error e => (.error e, buf, [])
  | .ok ext =>
    if ext.2 ≤ t then (.error PyErr.valueError, buf, [])
    else if ext.1 ≤ t then (.error PyErr.nameError, buf, [])
    else
      match fetcher buf.channels t ext.1 with
      | .ok _ => (.ok (), buf, [FetchCall.mk buf.channels t ext.1])
      | .error e => (.error e, buf, [FetchCall.mk buf.channels t ext.1])

/-- The body of the `end` write accessor (source lines 222-230), under the
same generous modelling as `startSetterBody`: the same-name `@property`
shadowing makes it unreachable as written, the warn branch raises a
`NameError` because `warnings` is never imported, and the fetched data
(line 230) is discarded, leaving the buffer unchanged. -/
def endSetterBody (buf : Buffer) (fetcher : Fetcher) (t : Int) :
    Except PyErr Unit × Buffer × List FetchCall :=
  match extent buf with
  | .error e => (.error e, buf, [])
  | .ok ext =>
    if t ≤ ext.1 then (.error PyErr.valueError, buf, [])
    else if t ≤ ext.2 then (.error PyErr.nameError, buf, [])
    else
      match fetcher buf.channels ext.2 t with
      | .ok _ => (.ok (), buf, [FetchCall.mk buf.channels ext.2 t])
      | .error e => (.error e, buf, [FetchCall.mk buf.channels ext.2 t])

/-- `BufferCore.add_channels` (source lines 235-255).  Line 247 reads
`channels = ChannelList.from_names(channels)`, passing the whole argument
tuple to the resolver as a single positional argument instead of unpacking
it the way `__init__` line 72 does (`from_names(*channels)`); the resolver
applies string handling to the tuple and raises.  The remainder of the body
is translated after the resolution step; note that line 255 discards the
value returned by `self.fetch`, so even a successful resolution would never
store data for the new channels. -/
def add_channels (buf : Buffer) (fetcher : Fetcher) (names : List String) :
    Except PyErr Unit × Buffer × List FetchCall :=
  match from_names [PyVal.tuple names] with
  | .error e => (.error e, buf, [])
  | .ok resolved =>
    let folded := resolved.foldl
      (fun (acc : List Channel × List Channel) c =>
        if acc.2.contains c then acc else (acc.1 ++ [c], acc.2 ++ [c]))
      ([], buf.channels)
    let buf1 : Buffer := { buf with channels := folded.2 }
    match segments buf1 with
    | .error e => (.error e, buf1, [])
    | .ok segl =>
      let looped := segl.foldl
        (fun (acc : Option PyErr × List FetchCall) s =>
          match acc.1 with
          | some _ => acc
          | none =>
            match fetcher folded.1 s.1 s.2 with
            | .ok _ => (none, acc.2 ++ [FetchCall.mk folded.1 s.1 s.2])
            | .error e => (some e, acc.2 ++ [FetchCall.mk folded.1 s.1 s.2]))
        (none, [])
      match looped.1 with
      | some e => (.error e, buf1, looped.2)
      | none => (.ok (), buf1, looped.2)

end BufferCore

/-
Concrete instances used by the witnesses and the evaluation theorems.
-/

/-- A concrete channel. -/
def chanA : Channel := ⟨"X1:TEST-A"⟩

/-- A second concrete channel. -/
def chanB : Channel := ⟨"X1:TEST-B"⟩

/-- A chunk covering the interval from 0 to 10 (epoch 0, spacing 5, two
samples). -/
def chunk0 : Chunk := ⟨0, 5, [1, 2]⟩

/-- A chunk covering the interval from 100 to 200 (epoch 100, spacing 50,
two samples). -/
def chunk100 : Chunk := ⟨100, 50, [3, 4]⟩

/-- A buffer holding data covering the interval from 0 to 10 for its single
channel. -/
def bCov : Buffer := ⟨[chanA], [(chanA, [chunk0])]⟩

/-- A buffer holding data covering the interval from 100 to 200 for its
single channel. -/
def b100200 : Buffer := ⟨[chanA], [(chanA, [chunk100])]⟩

/-- A buffer constructed from exactly one channel name given as a single
string, with one chunk appended for that channel. -/
def bSingle : Buffer :=
  BufferCore.append (BufferCore.init (.one "X1:TEST-A")) [(chanA, chunk0)]

/-- A fetcher that always succeeds, returning for each requested channel one
chunk of unit spacing covering exactly the requested range. -/
def okFetcher : Fetcher := fun chs s e =>
  .ok (chs.map (fun c => (c, ⟨s, 1, List.replicate (e - s).toNat 7⟩)))

/-- A fetcher that raises on any request starting at or after GPS 40 and
succeeds elsewhere. -/
def flakyFetcher : Fetcher := fun chs s e =>
  if 40 ≤ s then .error .runtimeError else okFetcher chs s e

/-
General lemmas about the segment algebra model.
-/

theorem mem_segInsertSort (s : Seg) : ∀ (l : SegList) (y : Seg),
    y ∈ segInsertSort s l → y = s ∨ y ∈ l
  | [], y, hy => by
    simp only [segInsertSort, List.mem_singleton] at hy
    exact Or.inl hy
  | x :: xs, y, hy => by
    unfold segInsertSort at hy
    by_cases h : s.1 ≤ x.1
    · rw [if_pos h] at hy
      rcases List.mem_cons.mp hy with hy | hy
      · exact Or.inl hy
      · exact Or.inr hy
    · rw [if_neg h] at hy
      rcases List.mem_cons.mp hy with hy | hy
      · exact Or.inr (by simp [hy])
      · rcases mem_segInsertSort s xs y hy with h1 | h1
        · exact Or.inl h1
        · exact Or.inr (List.mem_cons_of_mem _ h1)

theorem segInsertSort_pairwise (s : Seg) : ∀ (l : SegList),
    List.Pairwise (fun x y : Seg => x.1 ≤ y.1) l →
    List.Pairwise (fun x y : Seg => x.1 ≤ y.1) (segInsertSort s l)
  | [], _ => by
    simp [segInsertSort]
  | x :: xs, hp => by
    unfold segInsertSort
    rcases List.pairwise_cons.mp hp with ⟨hx, hxs⟩
    by_cases h : s.1 ≤ x.1
    · rw [if_pos h]
      refine List.pairwise_cons.mpr ⟨?_, hp⟩
      intro y hy
      rcases List.mem_cons.mp hy with hy | hy
      · rw [hy]; exact h
      · exact le_trans h (hx y hy)
    · rw [if_neg h]
      refine List.pairwise_cons.mpr ⟨?_, segInsertSort_pairwise s xs hxs⟩
      intro y hy
      rcases mem_segInsertSort s xs y hy with h1 | h1
      · rw [h1]; exact le_of_lt (lt_of_not_le h)
      · exact hx y h1

theorem sortSegs_pairwise : ∀ (l : SegList),
    List.Pairwise (fun x y : Seg => x.1 ≤ y.1) (sortSegs l)
  | [] => List.Pairwise.nil
  | x :: xs => segInsertSort_pairwise x (sortSegs xs) (sortSegs_pairwise xs)

theorem insertMerge_lb (c : Int) : ∀ (a : Seg) (l : SegList),
    c ≤ a.1 → (∀ x ∈ l, c ≤ x.1) → ∀ y ∈ insertMerge a l, c ≤ y.1
  | a, [], ha, _, y, hy => by
    simp only [insertMerge, List.mem_singleton] at hy
    rw [hy]; exact ha
  | a, b :: tail, ha, hl, y, hy => by
    unfold insertMerge at hy
    by_cases h : b.1 ≤ a.2
    · rw [if_pos h] at hy
      exact insertMerge_lb c (a.1, max a.2 b.2) tail ha
        (fun x hx => hl x (List.mem_cons_of_mem _ hx)) y hy
    · rw [if_neg h] at hy
      rcases List.mem_cons.mp hy with hy | hy
      · rw [hy]; exact ha
      · exact hl y hy

theorem insertMerge_pos : ∀ (a : Seg) (l : SegList),
    a.1 < a.2 → (∀ x ∈ l, x.1 < x.2) → ∀ y ∈ insertMerge a l, y.1 < y.2
  | a, [], ha, _, y, hy => by
    simp only [insertMerge, List.mem_singleton] at hy
    rw [hy]; exact ha
  | a, b :: tail, ha, hl, y, hy => by
    unfold insertMerge at hy
    by_cases h : b.1 ≤ a.2
    · rw [if_pos h] at hy
      exact insertMerge_pos (a.1, max a.2 b.2) tail
        (lt_of_lt_of_le ha (le_max_left _ _))
        (fun x hx => hl x (List.mem_cons_of_mem _ hx)) y hy
    · rw [if_neg h] at hy
      rcases List.mem_cons.mp hy with hy | hy
      · rw [hy]; exact ha
      · exact hl y hy

theorem insertMerge_chain : ∀ (a : Seg) (l : SegList),
    a.1 < a.2 → (∀ x ∈ l, x.1 < x.2) → (∀ x ∈ l, a.1 ≤ x.1) →
    List.Chain' (fun x y : Seg => x.2 < y.1) l →
    List.Chain' (fun x y : Seg => x.2 < y.1) (insertMerge a l)
  | a, [], _, _, _, _ => List.chain'_singleton a
  | a, b :: tail, ha, hpos, hlb, hch => by
    unfold insertMerge
    by_cases h : b.1 ≤ a.2
    · rw [if_pos h]
      exact insertMerge_chain (a.1, max a.2 b.2) tail
        (lt_of_lt_of_le ha (le_max_left _ _))
        (fun x hx => hpos x (List.mem_cons_of_mem _ hx))
        (fun x hx => hlb x (List.mem_cons_of_mem _ hx))
        (List.Chain'.tail hch)
    · rw [if_neg h]
      exact List.chain'_cons.mpr ⟨lt_of_not_le h, hch⟩

theorem mergeSorted_lb (c : Int) : ∀ (l : SegList),
    (∀ x ∈ l, c ≤ x.1) → ∀ y ∈ mergeSorted l, c ≤ y.1
  | [], _, y, hy => by simp [mergeSorted] at hy
  | a :: rest, hl, y, hy => by
    unfold mergeSorted at hy
    by_cases h : a.1 < a.2
    · rw [if_pos h] at hy
      exact insertMerge_lb c a (mergeSorted rest)
        (hl a (List.mem_cons_self a rest))
        (mergeSorted_lb c rest (fun x hx => hl x (List.mem_cons_of_mem _ hx)))
        y hy
    · rw [if_neg h] at hy
      exact mergeSorted_lb c rest (fun x hx => hl x (List.mem_cons_of_mem _ hx)) y hy

theorem mergeSorted_pos : ∀ (l : SegList), ∀ y ∈ mergeSorted l, y.1 < y.2
  | [], y, hy => by simp [mergeSorted] at hy
  | a :: rest, y, hy => by
    unfold mergeSorted at hy
    by_cases h : a.1 < a.2
    · rw [if_pos h] at hy
      exact insertMerge_pos a (mergeSorted rest) h (mergeSorted_pos rest) y hy
    · rw [if_neg h] at hy
      exact mergeSorted_pos rest y hy

theorem mergeSorted_chain : ∀ (l : SegList),
    List.Pairwise (fun x y : Seg => x.1 ≤ y.1) l →
    List.Chain' (fun x y : Seg => x.2 < y.1) (mergeSorted l)
  | [], _ => List.chain'_nil
  | a :: rest, hp => by
    unfold mergeSorted
    rcases List.pairwise_cons.mp hp with ⟨ha, hrest⟩
    by_cases h : a.1 < a.2
    · rw [if_pos h]
      exact insertMerge_chain a (mergeSorted rest) h (mergeSorted_pos rest)
        (mergeSorted_lb a.1 rest ha) (mergeSorted_chain rest hrest)
    · rw [if_neg h]
      exact mergeSorted_chain rest hrest

theorem normSegs_pos (l : SegList) : ∀ y ∈ normSegs l, y.1 < y.2 :=
  mergeSorted_pos (sortSegs l)

theorem normSegs_chain (l : SegList) :
    List.Chain' (fun x y : Seg => x.2 < y.1) (normSegs l) :=
  mergeSorted_chain (sortSegs l) (sortSegs_pairwise l)

theorem segSub_pos (a b : SegList) : ∀ y ∈ segSub a b, y.1 < y.2 :=
  normSegs_pos _

theorem chain_lt_of_sep : ∀ (l : SegList),
    List.Chain' (fun x y : Seg => x.2 < y.1) l →
    (∀ x ∈ l, x.1 < x.2) →
    List.Chain' (fun x y : Seg => x.1 < y.1) l
  | [], _, _ => List.chain'_nil
  | [a], _, _ => List.chain'_singleton a
  | a :: b :: t, hch, hpos => by
    rcases List.chain'_cons.mp hch with ⟨hab, htail⟩
    refine List.chain'_cons.mpr ⟨?_, ?_⟩
    · exact lt_trans (hpos a (List.mem_cons_self _ _)) hab
    · exact chain_lt_of_sep (b :: t) htail
        (fun x hx => hpos x (List.mem_cons_of_mem _ hx))

theorem segSub_sorted (a b : SegList) :
    List.Chain' (fun x y : Seg => x.1 < y.1) (segSub a b) :=
  chain_lt_of_sep _ (normSegs_chain _) (normSegs_pos _)

theorem segAbs_nonneg : ∀ (l : SegList), (∀ x ∈ l, x.1 < x.2) → 0 ≤ segAbs l
  | [], _ => le_refl 0
  | s :: rest, h => by
    unfold segAbs
    have h1 : (0 : Int) < s.2 - s.1 :=
      sub_pos.mpr (h s (List.mem_cons_self _ _))
    have h2 : (0 : Int) ≤ segAbs rest :=
      segAbs_nonneg rest (fun x hx => h x (List.mem_cons_of_mem _ hx))
    linarith

theorem segAbs_pos (s : Seg) (rest : SegList)
    (h : ∀ x ∈ s :: rest, x.1 < x.2) : 0 < segAbs (s :: rest) := by
  unfold segAbs
  have h1 : (0 : Int) < s.2 - s.1 := sub_pos.mpr (h s (List.mem_cons_self _ _))
  have h2 : (0 : Int) ≤ segAbs rest :=
    segAbs_nonneg rest (fun x hx => h x (List.mem_cons_of_mem _ hx))
  linarith

/-
General lemmas about the series container model, leading to idempotence of
coalescing.
-/

theorem mem_insChunk (c : Chunk) : ∀ (l : List Chunk) (y : Chunk),
    y ∈ insChunk c l → y = c ∨ y ∈ l
  | [], y, hy => by
    simp only [insChunk, List.mem_singleton] at hy
    exact Or.inl hy
  | x :: xs, y, hy => by
    unfold insChunk at hy
    by_cases h : c.start ≤ x.start
    · rw [if_pos h] at hy
      rcases List.mem_cons.mp hy with hy | hy
      · exact Or.inl hy
      · exact Or.inr hy
    · rw [if_neg h] at hy
      rcases List.mem_cons.mp hy with hy | hy
      · exact Or.inr (by simp [hy])
      · rcases mem_insChunk c xs y hy with h1 | h1
        · exact Or.inl h1
        · exact Or.inr (List.mem_cons_of_mem _ h1)

theorem insChunk_pairwise (c : Chunk) : ∀ (l : List Chunk),
    List.Pairwise (fun x y : Chunk => x.start ≤ y.start) l →
    List.Pairwise (fun x y : Chunk => x.start ≤ y.start) (insChunk c l)
  | [], _ => by simp [insChunk]
  | x :: xs, hp => by
    unfold insChunk
    rcases List.pairwise_cons.mp hp with ⟨hx, hxs⟩
    by_cases h : c.start ≤ x.start
    · rw [if_pos h]
      refine List.pairwise_cons.mpr ⟨?_, hp⟩
      intro y hy
      rcases List.mem_cons.mp hy with hy | hy
      · rw [hy]; exact h
      · exact le_trans h (hx y hy)
    · rw [if_neg h]
      refine List.pairwise_cons.mpr ⟨?_, insChunk_pairwise c xs hxs⟩
      intro y hy
      rcases mem_insChunk c xs y hy with h1 | h1
      · rw [h1]; exact le_of_lt (lt_of_not_le h)
      · exact hx y h1

theorem sortByStart_pairwise : ∀ (l : List Chunk),
    List.Pairwise (fun x y : Chunk => x.start ≤ y.start) (sortByStart l)
  | [] => List.Pairwise.nil
  | x :: xs => insChunk_pairwise x (sortByStart xs) (sortByStart_pairwise xs)

theorem sortByStart_eq_of_pairwise : ∀ (l : List Chunk),
    List.Pairwise (fun x y : Chunk => x.start ≤ y.start) l →
    sortByStart l = l
  | [], _ => rfl
  | x :: xs, hp => by
    rcases List.pairwise_cons.mp hp with ⟨hx, hxs⟩
    unfold sortByStart
    rw [sortByStart_eq_of_pairwise xs hxs]
    cases xs with
    | nil => rfl
    | cons y ys =>
      unfold insChunk
      rw [if_pos (hx y (List.mem_cons_self _ _))]

theorem mergeChunks_start (a b : Chunk) : (mergeChunks a b).start = a.start := rfl

theorem mergeChunks_dt (a b : Chunk) : (mergeChunks a b).dt = a.dt := rfl

theorem insertChunk_chain : ∀ (a : Chunk) (l : List Chunk),
    List.Chain' (fun x y : Chunk => canMerge x y = false) l →
    List.Chain' (fun x y : Chunk => canMerge x y = false) (insertChunk a l)
  | a, [], _ => List.chain'_singleton a
  | a, b :: tail, hch => by
    unfold insertChunk
    by_cases h : canMerge a b
    · rw [if_pos h]
      exact insertChunk_chain (mergeChunks a b) tail (List.Chain'.tail hch)
    · rw [if_neg h]
      exact List.chain'_cons.mpr ⟨Bool.eq_false_iff.mpr h, hch⟩

theorem coalesceRun_chain : ∀ (l : List Chunk),
    List.Chain' (fun x y : Chunk => canMerge x y = false) (coalesceRun l)
  | [] => List.chain'_nil
  | a :: rest => insertChunk_chain a (coalesceRun rest) (coalesceRun_chain rest)

theorem coalesceRun_eq_of_chain : ∀ (l : List Chunk),
    List.Chain' (fun x y : Chunk => canMerge x y = false) l →
    coalesceRun l = l
  | [], _ => rfl
  | a :: rest, hch => by
    unfold coalesceRun
    rw [coalesceRun_eq_of_chain rest (List.Chain'.tail hch)]
    cases rest with
    | nil => rfl
    | cons b tail =>
      unfold insertChunk
      rw [if_neg (Bool.eq_false_iff.mp (List.chain'_cons.mp hch).1)]

theorem insertChunk_lb (c : Int) : ∀ (a : Chunk) (l : List Chunk),
    c ≤ a.start → (∀ x ∈ l, c ≤ x.start) → ∀ y ∈ insertChunk a l, c ≤ y.start
  | a, [], ha, _, y, hy => by
    simp only [insertChunk, List.mem_singleton] at hy
    rw [hy]; exact ha
  | a, b :: tail, ha, hl, y, hy => by
    unfold insertChunk at hy
    by_cases h : canMerge a b
    · rw [if_pos h] at hy
      exact insertChunk_lb c (mergeChunks a b) tail ha
        (fun x hx => hl x (List.mem_cons_of_mem _ hx)) y hy
    · rw [if_neg h] at hy
      rcases List.mem_cons.mp hy with hy | hy
      · rw [hy]; exact ha
      · exact hl y hy

theorem coalesceRun_lb (c : Int) : ∀ (l : List Chunk),
    (∀ x ∈ l, c ≤ x.start) → ∀ y ∈ coalesceRun l, c ≤ y.start
  | [], _, y, hy => by simp [coalesceRun] at hy
  | a :: rest, hl, y, hy => by
    unfold coalesceRun at hy
    exact insertChunk_lb c a (coalesceRun rest)
      (hl a (List.mem_cons_self a rest))
      (coalesceRun_lb c rest (fun x hx => hl x (List.mem_cons_of_mem _ hx)))
      y hy

theorem insertChunk_pairwise : ∀ (a : Chunk) (l : List Chunk),
    List.Pairwise (fun x y : Chunk => x.start ≤ y.start) l →
    (∀ x ∈ l, a.start ≤ x.start) →
    List.Pairwise (fun x y : Chunk => x.start ≤ y.start) (insertChunk a l)
  | a, [], _, _ => by simp [insertChunk]
  | a, b :: tail, hp, hlb => by
    unfold insertChunk
    rcases List.pairwise_cons.mp hp with ⟨hb, htail⟩
    by_cases h : canMerge a b
    · rw [if_pos h]
      refine insertChunk_pairwise (mergeChunks a b) tail htail ?_
      intro x hx
      rw [mergeChunks_start]
      exact le_trans (hlb b (List.mem_cons_self _ _)) (hb x hx)
    · rw [if_neg h]
      exact List.pairwise_cons.mpr ⟨hlb, hp⟩

theorem coalesceRun_pairwise : ∀ (l : List Chunk),
    List.Pairwise (fun x y : Chunk => x.start ≤ y.start) l →
    List.Pairwise (fun x y : Chunk => x.start ≤ y.start) (coalesceRun l)
  | [], _ => List.Pairwise.nil
  | a :: rest, hp => by
    rcases List.pairwise_cons.mp hp with ⟨ha, hrest⟩
    unfold coalesceRun
    exact insertChunk_pairwise a (coalesceRun rest)
      (coalesceRun_pairwise rest hrest)
      (coalesceRun_lb a.start rest ha)

theorem coalesceList_idem (l : List Chunk) :
    coalesceList (coalesceList l) = coalesceList l := by
  unfold coalesceList
  rw [sortByStart_eq_of_pairwise _
        (coalesceRun_pairwise _ (sortByStart_pairwise l)),
      coalesceRun_eq_of_chain _ (coalesceRun_chain _)]

/-
Lemmas about the fetch loop and the main body of `get`.
-/

theorem append_channels (buf : Buffer) (d : FetchData) :
    (BufferCore.append buf d).channels = buf.channels := rfl

theorem coalesce_channels (buf : Buffer) :
    (BufferCore.coalesce buf).channels = buf.channels := rfl

theorem loopStep_channels (chs : List Channel) (fetcher : Fetcher)
    (b : Buffer) (s : Seg) :
    (BufferCore.loopStep chs fetcher b s).channels = b.channels := by
  unfold BufferCore.loopStep
  cases fetcher chs s.1 s.2 with
  | ok d => rfl
  | error e => rfl

theorem fetchLoop_ok (fetcher : Fetcher) (l : SegList) :
    ∀ (buf : Buffer),
      (∀ x ∈ l, exceptOk (fetcher buf.channels x.1 x.2) = true) →
      BufferCore.fetchLoop fetcher buf l
        = (l.foldl (BufferCore.loopStep buf.channels fetcher) buf,
           l.map (fun x => FetchCall.mk buf.channels x.1 x.2), none) := by
  induction l with
  | nil => intro buf _; rfl
  | cons x rest ih =>
    intro buf h
    have hx := h x (List.mem_cons_self x rest)
    cases hf : fetcher buf.channels x.1 x.2 with
    | error e => rw [hf] at hx; simp [exceptOk] at hx
    | ok d =>
      have hch : (BufferCore.coalesce (BufferCore.append buf d)).channels
          = buf.channels := rfl
      have ih2 := ih (BufferCore.coalesce (BufferCore.append buf d))
        (by intro y hy; rw [hch]; exact h y (List.mem_cons_of_mem x hy))
      rw [hch] at ih2
      simp only [BufferCore.fetchLoop, hf, ih2, List.map_cons, List.foldl_cons]
      have hstep : BufferCore.loopStep buf.channels fetcher buf x
          = BufferCore.coalesce (BufferCore.append buf d) := by
        unfold BufferCore.loopStep
        rw [hf]
      rw [hstep]

theorem fetchLoop_fail (fetcher : Fetcher) (s : Seg) (post : SegList)
    (e : PyErr) (pre : SegList) :
    ∀ (buf : Buffer),
      (∀ x ∈ pre, exceptOk (fetcher buf.channels x.1 x.2) = true) →
      fetcher buf.channels s.1 s.2 = Except.error e →
      BufferCore.fetchLoop fetcher buf (pre ++ s :: post)
        = (pre.foldl (BufferCore.loopStep buf.channels fetcher) buf,
           (pre ++ [s]).map (fun x => FetchCall.mk buf.channels x.1 x.2), some e) := by
  induction pre with
  | nil =>
    intro buf _ hbad
    simp only [List.nil_append, BufferCore.fetchLoop, hbad, List.map_cons,
      List.map_nil, List.foldl_nil]
  | cons x rest ih =>
    intro buf h hbad
    have hx := h x (List.mem_cons_self x rest)
    cases hf : fetcher buf.channels x.1 x.2 with
    | error e2 => rw [hf] at hx; simp [exceptOk] at hx
    | ok d =>
      have hch : (BufferCore.coalesce (BufferCore.append buf d)).channels
          = buf.channels := rfl
      have ih2 := ih (BufferCore.coalesce (BufferCore.append buf d))
        (by intro y hy; rw [hch]; exact h y (List.mem_cons_of_mem x hy))
        (by rw [hch]; exact hbad)
      rw [hch] at ih2
      simp only [List.cons_append, BufferCore.fetchLoop, hf, List.append_eq, ih2,
        List.map_cons, List.foldl_cons]
      have hstep : BufferCore.loopStep buf.channels fetcher buf x
          = BufferCore.coalesce (BufferCore.append buf d) := by
        unfold BufferCore.loopStep
        rw [hf]
      rw [hstep]

theorem getFinish_buf (buf1 : Buffer) (calls : List FetchCall)
    (err : Option PyErr) (segs : SegList) :
    (BufferCore.getFinish buf1 calls err segs).buf = buf1 := by
  unfold BufferCore.getFinish
  cases err with
  | some e => rfl
  | none =>
    cases hb : BufferCore.buildOut buf1 segs with
    | error e => rfl
    | ok out =>
      cases hch : buf1.channels with
      | nil => rfl
      | cons c cs => rfl

theorem getFinish_calls (buf1 : Buffer) (calls : List FetchCall)
    (err : Option PyErr) (segs : SegList) :
    (BufferCore.getFinish buf1 calls err segs).calls = calls := by
  unfold BufferCore.getFinish
  cases err with
  | some e => rfl
  | none =>
    cases hb : BufferCore.buildOut buf1 segs with
    | error e => rfl
    | ok out =>
      cases hch : buf1.channels with
      | nil => rfl
      | cons c cs => rfl

theorem getFinish_some (buf1 : Buffer) (calls : List FetchCall) (e : PyErr)
    (segs : SegList) :
    BufferCore.getFinish buf1 calls (some e) segs
      = ⟨Except.error e, buf1, calls⟩ := rfl

theorem getSegs_nofetch (buf : Buffer) (fetcher : Fetcher) (segs : SegList) :
    (BufferCore.getSegs buf fetcher segs false).buf = buf
    ∧ (BufferCore.getSegs buf fetcher segs false).calls = [] := by
  unfold BufferCore.getSegs
  cases hav : BufferCore.available buf with
  | error e => exact ⟨rfl, rfl⟩
  | ok avail =>
    simp only [Bool.false_and, Bool.false_eq_true, if_false]
    exact ⟨getFinish_buf buf [] none segs, getFinish_calls buf [] none segs⟩

theorem getSegs_ok (buf : Buffer) (fetcher : Fetcher) (segs avail : SegList)
    (hav : BufferCore.available buf = Except.ok avail)
    (hok : ∀ s ∈ segSub segs avail, exceptOk (fetcher buf.channels s.1 s.2) = true) :
    (BufferCore.getSegs buf fetcher segs true).calls
        = (segSub segs avail).map (fun s => FetchCall.mk buf.channels s.1 s.2)
    ∧ (BufferCore.getSegs buf fetcher segs true).buf
        = (segSub segs avail).foldl (BufferCore.loopStep buf.channels fetcher) buf := by
  have hpos := segSub_pos segs avail
  rcases hm : segSub segs avail with _ | ⟨m, ms⟩
  · unfold BufferCore.getSegs
    simp only [hav, hm, segAbs, bne_self_eq_false, Bool.and_false,
      Bool.false_eq_true, if_false, List.map_nil, List.foldl_nil]
    exact ⟨getFinish_calls buf [] none segs, getFinish_buf buf [] none segs⟩
  · rw [hm] at hpos hok
    have habs : 0 < segAbs (m :: ms) := segAbs_pos m ms hpos
    have hcond : (true && (segAbs (m :: ms) != 0)) = true := by
      simp only [Bool.true_and, bne_iff_ne, ne_eq]
      simp [habs.ne']
    have hloop := fetchLoop_ok fetcher (m :: ms) buf hok
    unfold BufferCore.getSegs
    simp only [hav, hm]
    rw [if_pos hcond, hloop]
    exact ⟨getFinish_calls _ _ none segs, getFinish_buf _ _ none segs⟩

theorem getSegs_fail (buf : Buffer) (fetcher : Fetcher) (segs avail : SegList)
    (pre : SegList) (s : Seg) (post : SegList) (e : PyErr)
    (hav : BufferCore.available buf = Except.ok avail)
    (hm : segSub segs avail = pre ++ s :: post)
    (hok : ∀ x ∈ pre, exceptOk (fetcher buf.channels x.1 x.2) = true)
    (hbad : fetcher buf.channels s.1 s.2 = Except.error e) :
    BufferCore.getSegs buf fetcher segs true
      = ⟨Except.error e,
         pre.foldl (BufferCore.loopStep buf.channels fetcher) buf,
         (pre ++ [s]).map (fun x => FetchCall.mk buf.channels x.1 x.2)⟩ := by
  have hpos := segSub_pos segs avail
  rw [hm] at hpos
  have habs : 0 < segAbs (pre ++ s :: post) := by
    cases hp : pre ++ s :: post with
    | nil => exact absurd hp (by simp)
    | cons a rest => rw [hp] at hpos; exact segAbs_pos a rest hpos
  have hcond : (true && (segAbs (pre ++ s :: post) != 0)) = true := by
    simp only [Bool.true_and, bne_iff_ne, ne_eq]
    simp [habs.ne']
  have hloop := fetchLoop_fail fetcher s post e pre buf hok hbad
  unfold BufferCore.getSegs
  simp only [hav, hm]
  rw [if_pos hcond, hloop]
  exact getFinish_some _ _ _ _

/-- A helper for idempotence of the buffer-level coalesce: coalescing every
container twice equals coalescing it once. -/
theorem coalesce_idem_data : ∀ (d : List (Channel × List Chunk)),
    (d.map (fun p => (p.1, coalesceList p.2))).map (fun p => (p.1, coalesceList p.2))
      = d.map (fun p => (p.1, coalesceList p.2))
  | [] => rfl
  | p :: rest => by
    simp only [List.map_cons, coalesce_idem_data rest, coalesceList_idem]

/-- C1: `get` computes the missing ranges as the requested segments minus
the intersection, over all buffered channels, of each channel buffered
interval set — observable as exactly one fetch call per missing interval,
in order — and whenever that missing set is empty (every channel already
has data over the whole request) `get` makes no fetch call at all and
leaves the buffer untouched, even when called with fetch enabled. -/
theorem C1_missing_diff_and_no_fetch_when_covered
    (buf : Buffer) (fetcher : Fetcher) (segs avail : SegList)
    (hav : BufferCore.available buf = Except.ok avail)
    (hok : ∀ s ∈ segSub segs avail, exceptOk (fetcher buf.channels s.1 s.2) = true) :
    (BufferCore.get buf fetcher (.segs segs) true).calls
        = (segSub segs avail).map (fun s => FetchCall.mk buf.channels s.1 s.2)
    ∧ (segSub segs avail = [] →
        (BufferCore.get buf fetcher (.segs segs) true).calls = []
        ∧ (BufferCore.get buf fetcher (.segs segs) true).buf = buf) := by
  have hg : BufferCore.get buf fetcher (.segs segs) true
      = BufferCore.getSegs buf fetcher segs true := rfl
  have h := getSegs_ok buf fetcher segs avail hav hok
  refine ⟨by rw [hg]; exact h.1, fun hmiss => ⟨?_, ?_⟩⟩
  · rw [hg, h.1, hmiss]; rfl
  · rw [hg, h.2, hmiss]; rfl

/-- Witness for C1: a buffer covering the range 0 to 10 for its channel,
queried over the sub-range 2 to 8; the missing set is empty and no fetch
call is made even with fetch enabled. -/
theorem C1_witness :
    BufferCore.available bCov = Except.ok [(0, 10)]
    ∧ segSub [(2, 8)] [(0, 10)] = []
    ∧ (BufferCore.get bCov okFetcher (.segs [(2, 8)]) true).calls = []
    ∧ (BufferCore.get bCov okFetcher (.segs [(2, 8)]) true).buf = bCov := by
  refine ⟨rfl, rfl, ?_, ?_⟩
  · exact ((C1_missing_diff_and_no_fetch_when_covered bCov okFetcher
      [(2, 8)] [(0, 10)] rfl (by decide)).2 rfl).1
  · exact ((C1_missing_diff_and_no_fetch_when_covered bCov okFetcher
      [(2, 8)] [(0, 10)] rfl (by decide)).2 rfl).2

/-- C2: evaluation of the extension scenario on a buffer whose extent runs
from 100 to 200.  Extending end to 150 raises a NameError (the warn branch
references the never-imported warnings module) instead of warning, with no
fetch call and no state change; extending start to 250 raises a ValueError
with no fetch call; extending end to 300 makes exactly one fetch call for
the range 200 to 300 but discards the returned data, so the buffer is
unchanged and its end remains 200 rather than becoming 300. -/
theorem C2_extension_scenario_eval :
    BufferCore.endSetterBody b100200 okFetcher 150
        = (Except.error PyErr.nameError, b100200, [])
    ∧ BufferCore.startSetterBody b100200 okFetcher 250
        = (Except.error PyErr.valueError, b100200, [])
    ∧ (BufferCore.endSetterBody b100200 okFetcher 300).2.2
        = [FetchCall.mk [chanA] 200 300]
    ∧ (BufferCore.endSetterBody b100200 okFetcher 300).2.1 = b100200
    ∧ BufferCore.endTime (BufferCore.endSetterBody b100200 okFetcher 300).2.1
        = Except.ok 200 :=
  ⟨rfl, rfl, rfl, rfl, rfl⟩

/-- C3: on a buffer covering the range 0 to 10 for channel A, add_channels
with one genuinely new name raises a TypeError inside the channel resolver
(line 247 passes the whole argument tuple as a single name instead of
unpacking it), makes no fetch call, inserts no channel, and stores no data
for the new name — so the new channel does not afterwards cover the
previously covered ranges. -/
theorem C3_add_channels_eval :
    BufferCore.add_channels bCov okFetcher ["X1:TEST-B"]
        = (Except.error PyErr.typeError, bCov, [])
    ∧ lookupData bCov chanB = none
    ∧ chanB ∉ bCov.channels := by
  refine ⟨rfl, rfl, ?_⟩
  decide

/-- C4: a buffer constructed with exactly one channel name given as a single
string does not make get return the bare series container: the unwrap test
of line 135 inspects the loop variable (a resolved channel object, never a
str) together with an undefined name, so get returns the one-entry
per-channel mapping instead. -/
theorem C4_single_string_get_returns_mapping :
    BufferCore.get bSingle baseFetch (.segs [(0, 10)]) false
      = ⟨Except.ok (GetResult.mapping [(chanA, [chunk0])]), bSingle, []⟩ := rfl

/-- C5: with several missing intervals, get fetches them one at a time in
ascending order of start time, invoking the fetcher with the full channel
set and each interval bounds, committing (append then coalesce) after each
successful fetch before moving to the next; when a later fetch raises, the
exception propagates while the data appended for the earlier intervals
remains committed in the buffer. -/
theorem C5_sequential_fetch_commit
    (buf : Buffer) (fetcher : Fetcher) (segs avail : SegList)
    (pre : SegList) (s : Seg) (post : SegList) (e : PyErr)
    (hav : BufferCore.available buf = Except.ok avail)
    (hm : segSub segs avail = pre ++ s :: post)
    (hok : ∀ x ∈ pre, exceptOk (fetcher buf.channels x.1 x.2) = true)
    (hbad : fetcher buf.channels s.1 s.2 = Except.error e) :
    (BufferCore.get buf fetcher (.segs segs) true).result = Except.error e
    ∧ (BufferCore.get buf fetcher (.segs segs) true).calls
        = (pre ++ [s]).map (fun x => FetchCall.mk buf.channels x.1 x.2)
    ∧ (BufferCore.get buf fetcher (.segs segs) true).buf
        = pre.foldl (BufferCore.loopStep buf.channels fetcher) buf
    ∧ List.Chain' (fun x y : Seg => x.1 < y.1) (segSub segs avail) := by
  have hg : BufferCore.get buf fetcher (.segs segs) true
      = BufferCore.getSegs buf fetcher segs true := rfl
  rw [hg, getSegs_fail buf fetcher segs avail pre s post e hav hm hok hbad]
  exact ⟨rfl, rfl, rfl, segSub_sorted segs avail⟩

/-- Witness for C5: a buffer covering 0 to 10, queried over two disjoint
missing intervals 20 to 30 and 40 to 50 with a fetcher that raises on the
second; one call per interval in ascending order, the first committed, and
the error propagated. -/
theorem C5_witness :
    BufferCore.available bCov = Except.ok [(0, 10)]
    ∧ segSub [(20, 30), (40, 50)] [(0, 10)] = [(20, 30)] ++ (40, 50) :: []
    ∧ (∀ x ∈ ([(20, 30)] : SegList),
        exceptOk (flakyFetcher bCov.channels x.1 x.2) = true)
    ∧ flakyFetcher bCov.channels 40 50 = Except.error PyErr.runtimeError
    ∧ (BufferCore.get bCov flakyFetcher (.segs [(20, 30), (40, 50)]) true).result
        = Except.error PyErr.runtimeError
    ∧ (BufferCore.get bCov flakyFetcher (.segs [(20, 30), (40, 50)]) true).calls
        = (([(20, 30)] ++ [(40, 50)] : SegList)).map
            (fun x => FetchCall.mk bCov.channels x.1 x.2)
    ∧ (BufferCore.get bCov flakyFetcher (.segs [(20, 30), (40, 50)]) true).buf
        = [((20 : Int), (30 : Int))].foldl
            (BufferCore.loopStep bCov.channels flakyFetcher) bCov := by
  have h := C5_sequential_fetch_commit bCov flakyFetcher [(20, 30), (40, 50)]
    [(0, 10)] [(20, 30)] (40, 50) [] PyErr.runtimeError rfl rfl (by decide) rfl
  exact ⟨rfl, rfl, by decide, rfl, h.1, h.2.1, h.2.2.1⟩

/-- C6: calling get without a segments argument does not return the buffered
content: line 104 evaluates the undefined name channels (a leftover of a
removed parameter) and raises a NameError, with no fetch call and the
buffer left untouched. -/
theorem C6_get_none_raises_nameerror :
    BufferCore.get b100200 okFetcher .noSpec true
      = ⟨Except.error PyErr.nameError, b100200, []⟩ := rfl

/-- Counterexample to C7 as stated: immediately after construction from a
single name string, the resolved channel of the buffer has no series
container in the data mapping at all — the lookup yields none instead of an
empty container. -/
theorem C7_counterexample :
    lookupData (BufferCore.init (.one "X1:TEST-A")) chanA = none := rfl

/-- C7 amended: construction from one or more channel names (a single
string is accepted and treated as a one-element list) resolves the names
via the channel resolver, but initializes the per-channel series mapping
empty: no channel of the buffer has a series container in the data mapping
until data is first appended. -/
theorem C7_init_resolves_names_data_empty (arg : BufferCore.ChannelsArg) :
    (BufferCore.init arg).channels
        = (match arg with
           | .one s => [s]
           | .many l => l).map Channel.mk
    ∧ (BufferCore.init arg).data = []
    ∧ ∀ c : Channel, lookupData (BufferCore.init arg) c = none := by
  refine ⟨?_, rfl, fun c => rfl⟩
  cases arg with
  | one s => rfl
  | many l => rfl

/-- C8: coalesce is idempotent — for any buffer state, coalescing twice in
succession leaves exactly the per-channel series content of coalescing
once. -/
theorem C8_coalesce_idempotent (buf : Buffer) :
    BufferCore.coalesce (BufferCore.coalesce buf) = BufferCore.coalesce buf :=
  congrArg (fun d => Buffer.mk buf.channels d) (coalesce_idem_data buf.data)

/-- C9: on a freshly constructed buffer, with channels but no fetched data,
the derived segments property returns the empty interval list and does not
raise: the type error that the fold over the empty data dictionary raises
is caught internally and degraded to an explicitly empty result. -/
theorem C9_fresh_buffer_segments_empty (arg : BufferCore.ChannelsArg) :
    BufferCore.segments (BufferCore.init arg) = Except.ok [] := rfl

/-- C10: with fetch disabled, get never invokes the fetcher and leaves the
buffer state — channel set and per-channel data mapping — exactly as it
was, for every buffer state and every segments argument; the returned
cropped series are assembled in a fresh container, not appended to the
buffer. -/
theorem C10_get_nofetch_frame (buf : Buffer) (fetcher : Fetcher) (spec : SegSpec) :
    (BufferCore.get buf fetcher spec false).buf = buf
    ∧ (BufferCore.get buf fetcher spec false).calls = [] := by
  cases spec with
  | noSpec => exact ⟨rfl, rfl⟩
  | pair a b => exact getSegs_nofetch buf fetcher [(a, b)]
  | flag active => exact getSegs_nofetch buf fetcher active
  | segs l => exact getSegs_nofetch buf fetcher l
